import Mathlib

/-!
Verification of the PSoC bootloader host library (src/lib.rs) against its
natural-language specification.

Shallow embedding conventions:
* Bytes are `Nat` values; lists of bytes model Rust byte slices and `Vec<u8>`.
  Every byte produced by the embedded code is `< 256`; hypotheses state this
  where inputs are quantified.
* `u16` arithmetic is modelled wrapping, i.e. reduced `% 65536` (release-mode
  Rust semantics; the specification itself phrases the checksum "mod 65536").
* Rust strings are modelled as their UTF-8 byte lists.  Byte-slicing a string
  off a character boundary panics in Rust; panics are modelled by `Option.none`.
* The serial transport is modelled by a session state `Sess`: a write-success
  flag, a queue of per-transaction response byte streams, and a trace of the
  packets written so far (each tagged with its `expect-response` flag).
  A `read` that finds the stream exhausted is an I/O error (`IoErr.eof`).
-/

namespace PsocBootloader

/-- Decidable equality for `Except` (not provided by core), so concrete runs
    of the embedded functions can be checked by `decide`. -/
def exceptDecEq {ε α : Type} [DecidableEq ε] [DecidableEq α] :
    (x y : Except ε α) → Decidable (x = y)
  | .error a, .error b =>
    match decEq a b with
    | isTrue h => isTrue (h ▸ rfl)
    | isFalse h => isFalse fun hc => h (Except.error.inj hc)
  | .error _, .ok _ => isFalse fun hc => Except.noConfusion hc
  | .ok _, .error _ => isFalse fun hc => Except.noConfusion hc
  | .ok a, .ok b =>
    match decEq a b with
    | isTrue h => isTrue (h ▸ rfl)
    | isFalse h => isFalse fun hc => h (Except.ok.inj hc)

instance {ε α : Type} [DecidableEq ε] [DecidableEq α] : DecidableEq (Except ε α) :=
  exceptDecEq

/-- The protocol command set of `enum BootloaderCommand` in src/lib.rs. -/
inductive BootloaderCommand
  | VerifyChecksum
  | GetFlashSize
  | GetAppStatus
  | EraseRow
  | Sync
  | SetActiveApp
  | SendData
  | EnterBootloader
  | ProgramRow
  | VerifyRow
  | ExitBootloader
  | GetMetaData
  deriving DecidableEq

/-- `impl Into<u8> for BootloaderCommand` (src/lib.rs lines 24-41). -/
def BootloaderCommand.toByte : BootloaderCommand → Nat
  | .VerifyChecksum => 0x31
  | .GetFlashSize => 0x32
  | .GetAppStatus => 0x33
  | .EraseRow => 0x34
  | .Sync => 0x35
  | .SetActiveApp => 0x36
  | .SendData => 0x37
  | .EnterBootloader => 0x38
  | .ProgramRow => 0x39
  | .VerifyRow => 0x3A
  | .ExitBootloader => 0x3B
  | .GetMetaData => 0x3C

/-- Kinds of I/O failure the modelled transport can produce (stands in for the
    opaque `std::io::Error` payload of `HostError::Device`). -/
inductive IoErr
  | eof
  | closed
  deriving DecidableEq

/-- `enum HostError` (src/lib.rs lines 154-168). -/
inductive HostError
  | Eof
  | Length
  | Data
  | Command
  | Device (e : IoErr)
  | Version
  | Checksum
  | Array
  | Row
  | Bootloader
  | Active
  | Unknown
  deriving DecidableEq

/-- `enum BootloaderError` (src/lib.rs lines 170-182). -/
inductive BootloaderError
  | Length
  | Data
  | Command
  | Checksum
  | Array
  | Row
  | App
  | Active
  | Callback
  | Unknown
  deriving DecidableEq

/-- `enum Error` (src/lib.rs lines 202-206). -/
inductive Error
  | Host (e : HostError)
  | Bootloader (e : BootloaderError)
  deriving DecidableEq

/-- `impl From<u8> for BootloaderError` (src/lib.rs lines 184-200). -/
def BootloaderError.fromByte (value : Nat) : BootloaderError :=
  match value with
  | 0x03 => .Length
  | 0x04 => .Data
  | 0x05 => .Command
  | 0x08 => .Checksum
  | 0x09 => .Array
  | 0x0A => .Row
  | 0x0C => .App
  | 0x0D => .Active
  | 0x0E => .Callback
  | 0x0F => .Unknown
  | _ => .Unknown

/-- The `fold(0u16, |a,b| a+(*b as u16))` byte sum used by the codec
    (src/lib.rs lines 66 and 97): a wrapping `u16` accumulation of `u8`
    values, so each step reduces the byte `% 256` and the sum `% 65536`. -/
def sum16 (l : List Nat) : Nat :=
  l.foldl (fun a b => (a + b % 256) % 65536) 0

/-- `let checksum = 1 + !checksum;` on the `u16` byte sum (src/lib.rs
    lines 67 and 98): bitwise complement is `65535 - s`, and the `+ 1`
    wraps mod 65536. -/
def checksum16 (l : List Nat) : Nat :=
  (1 + (65535 - sum16 l)) % 65536

/-- `fn create_packet` (src/lib.rs lines 84-103): start marker, command byte,
    little-endian 16-bit length, payload, little-endian 16-bit checksum over
    everything so far, end marker. -/
def create_packet (cmd : BootloaderCommand) (data : Option (List Nat)) : List Nat :=
  let packet : List Nat := [0x01, cmd.toByte]
  let packet : List Nat :=
    match data with
    | some d =>
      let len := d.length % 65536
      packet ++ [len % 256, len / 256 % 256] ++ d
    | none => packet ++ [0x00, 0x00]
  let ck := checksum16 packet
  packet ++ [ck % 256, ck / 256 % 256, 0x17]

/-- The receive half of `fn transmit` (src/lib.rs lines 47-78), as a pure
    function of the response byte stream.  Mirrors the source exactly:
    * 4 header bytes via `read_exact` (error if fewer than 4 available);
    * start-byte check, then status check, then little-endian length;
    * the payload is read with `take(len).read_to_end`, which never fails
      and simply yields the bytes available;
    * the 3 footer bytes are read by a `read_exact` WHOSE RESULT THE SOURCE
      DISCARDS (line 64 has no `?`), so missing footer bytes are left as the
      `0u8` the buffer was initialised with;
    * checksum comparison, then end-marker check. -/
def transmitRx : List Nat → Except Error (List Nat)
  | h0 :: h1 :: h2 :: h3 :: rest =>
    if h0 ≠ 0x01 then .error (.Bootloader .Data)
    else if h1 ≠ 0x00 then .error (.Bootloader (BootloaderError.fromByte h1))
    else
      let len := h2 + h3 * 256
      let rx_data := rest.take len
      let after := rest.drop len
      let f0 := after.getD 0 0
      let f1 := after.getD 1 0
      let f2 := after.getD 2 0
      let ck := checksum16 ([h0, h1, h2, h3] ++ rx_data)
      let packet_ck := f0 + f1 * 256
      if packet_ck ≠ ck then .error (.Bootloader .Checksum)
      else if f2 ≠ 0x17 then .error (.Bootloader .Data)
      else .ok rx_data
  | _ => .error (.Host (.Device .eof))

/-- Session state threading the `Connection` transport through the protocol
    functions: whether writes succeed, the queue of device response streams
    (one per response-expecting transmit), and the trace of packets written,
    each paired with its `response` flag. -/
structure Sess where
  writeOk : Bool
  resps : List (List Nat)
  sent : List (List Nat × Bool)
  deriving DecidableEq

/-- `fn transmit` (src/lib.rs lines 44-82) against the modelled transport:
    `write_all` fails iff `writeOk` is false (wrapped `Host (Device _)` via
    `From<io::Error>`, lines 208-212); a response-expecting call consumes the
    next response stream and validates it with `transmitRx`; expecting a
    response with no stream queued is a failing `read_exact` on the header. -/
def transmitS (tx : List Nat) (response : Bool) (s : Sess) :
    Except Error (List Nat) × Sess :=
  if s.writeOk = false then (.error (.Host (.Device .closed)), s)
  else
    let s1 : Sess := { s with sent := s.sent ++ [(tx, response)] }
    if response then
      match s1.resps with
      | [] => (.error (.Host (.Device .eof)), s1)
      | r :: rs => (transmitRx r, { s1 with resps := rs })
    else (.ok [], s1)

/-- `enum ChecksumType` (src/lib.rs lines 214-217). -/
inductive ChecksumType
  | Sum
  | Crc
  deriving DecidableEq

/-- `struct CyacdHeader` (src/lib.rs lines 219-223). -/
structure CyacdHeader where
  silicon_id : Nat
  silicon_rev : Nat
  checksum_type : ChecksumType
  deriving DecidableEq

/-- `struct FlashRow` (src/lib.rs lines 225-231). -/
structure FlashRow where
  array_id : Nat
  row_num : Nat
  size : Nat
  data : List Nat
  checksum : Nat
  deriving DecidableEq

/-- Value of an ASCII hex digit byte, `none` for anything else. -/
def hexDigit (b : Nat) : Option Nat :=
  if 48 ≤ b ∧ b ≤ 57 then some (b - 48)
  else if 65 ≤ b ∧ b ≤ 70 then some (b - 55)
  else if 97 ≤ b ∧ b ≤ 102 then some (b - 87)
  else none

/-- `u8::from_str_radix(chunk, 16)` on a chunk of at most two string bytes
    (src/lib.rs line 238).  `from_str_radix` accepts an optional leading `+`;
    non-UTF-8 bytes become replacement characters under `from_utf8_lossy`
    and are not hex digits, so such chunks fail like any non-hex chunk. -/
def chunkParse : List Nat → Option Nat
  | [a] => hexDigit a
  | [a, b] =>
    if a = 43 then hexDigit b
    else
      match hexDigit a, hexDigit b with
      | some x, some y => some (16 * x + y)
      | _, _ => none
  | _ => none

/-- `slice::chunks(2)` over the string's bytes (src/lib.rs line 236). -/
def chunks2 : List Nat → List (List Nat)
  | [] => []
  | [a] => [[a]]
  | a :: b :: rest => [a, b] :: chunks2 rest

/-- `fn from_ascii` (src/lib.rs lines 233-241): split the string's bytes in
    chunks of two, parse each as hex, drop the failures. -/
def from_ascii (input : List Nat) : List Nat :=
  (chunks2 input).filterMap chunkParse

/-- `fn parse_header` (src/lib.rs lines 243-269), applied to the line that
    `read_line` produced (empty list at end of input). -/
def parse_header (line : List Nat) : Except Error CyacdHeader :=
  match from_ascii line with
  | [b0, b1, b2, b3, b4, b5] =>
    let silicon_id := b0 * 16777216 + b1 * 65536 + b2 * 256 + b3
    match b5 with
    | 0 => .ok ⟨silicon_id, b4, .Sum⟩
    | 1 => .ok ⟨silicon_id, b4, .Crc⟩
    | _ => .error (.Host .Checksum)
  | _ => .error (.Host .Length)

/-- `str::is_char_boundary` at byte index `i` of a string given by its UTF-8
    bytes: the index is the length, or the byte there is not a UTF-8
    continuation byte.  (Index 0 is always a boundary; `parse_row` only
    slices at index 1 of a non-empty string.) -/
def is_char_boundary (row : List Nat) (i : Nat) : Bool :=
  decide (i = row.length) ||
    (match row.get? i with
     | some b => decide (b < 128) || decide (192 ≤ b)
     | none => false)

/-- `fn parse_row` (src/lib.rs lines 272-310) on the line `read_line`
    produced (empty list at end of input).  `&row[1..]` (line 283) panics
    when byte index 1 is not a character boundary — modelled as `none`.
    The slice `bytes[5..(size+5) as usize]` (line 301) would also panic if
    its bounds were bad; the guard is kept although it is unreachable once
    the preceding length check has passed.  `u16` overflow in `size + 6`
    wraps `% 65536`. -/
def parse_row (row : List Nat) : Option (Except Error FlashRow) :=
  if row.length = 0 then some (.error (.Host .Eof))
  else if is_char_boundary row 1 = false then none
  else
    let bytes := from_ascii (row.drop 1)
    if bytes.length ≤ 6 then some (.error (.Host .Length))
    else if row.take 1 ≠ [58] then some (.error (.Host .Command))
    else
      let array_id := bytes.getD 0 0
      let row_num := bytes.getD 1 0 * 256 + bytes.getD 2 0
      let size := bytes.getD 3 0 * 256 + bytes.getD 4 0
      let checksum := bytes.getD (bytes.length - 1) 0
      if (size + 6) % 65536 ≠ bytes.length then some (.error (.Host .Length))
      else
        let e := (size + 5) % 65536
        if e < 5 ∨ bytes.length < e then none
        else some (.ok ⟨array_id, row_num, size, (bytes.drop 5).take (e - 5), checksum⟩)

/-- `fn start_bootloader` (src/lib.rs lines 105-109). -/
def start_bootloader (s : Sess) : Except Error Unit × Sess :=
  match transmitS (create_packet .EnterBootloader none) true s with
  | (.error e, s1) => (.error e, s1)
  | (.ok _, s1) => (.ok (), s1)

/-- `fn stop_bootloader` (src/lib.rs lines 111-115): fire-and-forget. -/
def stop_bootloader (s : Sess) : Except Error Unit × Sess :=
  match transmitS (create_packet .ExitBootloader none) false s with
  | (.error e, s1) => (.error e, s1)
  | (.ok _, s1) => (.ok (), s1)

/-- The `while row.data[offset..].len() > max_size` loop of `fn program_row`
    (src/lib.rs lines 118-125), recursing on the data remaining past
    `offset`: returns the remaining tail once it is at most 50 bytes.
    The structural `fuel` argument only bounds the iteration count so the
    recursion is kernel-computable; each iteration removes 50 bytes, so the
    `data.length` fuel supplied by `sendDataChunks` is never exhausted
    (`sendDataChunksF_fuel_free` below), and the zero-fuel branch is
    unreachable from `program_row`. -/
def sendDataChunksF : Nat → List Nat → Sess → Except Error (List Nat) × Sess
  | 0, data, s => (.ok data, s)
  | fuel + 1, data, s =>
    if 50 < data.length then
      match transmitS (create_packet .SendData (some (data.take 50))) true s with
      | (.error e, s1) => (.error e, s1)
      | (.ok _, s1) => sendDataChunksF fuel (data.drop 50) s1
    else (.ok data, s)

/-- The chunking loop of `fn program_row`, entered with enough fuel for the
    whole of `data`. -/
def sendDataChunks (data : List Nat) (s : Sess) : Except Error (List Nat) × Sess :=
  sendDataChunksF data.length data s

/-- `fn program_row` (src/lib.rs lines 117-133). -/
def program_row (row : FlashRow) (s : Sess) : Except Error Unit × Sess :=
  match sendDataChunks row.data s with
  | (.error e, s1) => (.error e, s1)
  | (.ok tail, s1) =>
    let d := [row.array_id, row.row_num % 256, row.row_num / 256 % 256] ++ tail
    match transmitS (create_packet .ProgramRow (some d)) true s1 with
    | (.error e, s2) => (.error e, s2)
    | (.ok _, s2) => (.ok (), s2)

/-- `fn verify_row` (src/lib.rs lines 135-140). -/
def verify_row (row : FlashRow) (s : Sess) : Except Error Unit × Sess :=
  let d := [row.array_id, row.row_num % 256, row.row_num / 256 % 256]
  match transmitS (create_packet .VerifyRow (some d)) true s with
  | (.error e, s1) => (.error e, s1)
  | (.ok _, s1) => (.ok (), s1)

/-- The `loop` of `fn bootload` (src/lib.rs lines 323-338) over the remaining
    input lines.  With no lines left, `read_line` yields the empty string and
    `parse_row` returns `Host Eof` (definitionally, see `parse_row_nil`), so
    that branch is taken directly.  `comm.close()`'s Bool result is discarded
    by the source, as here.  A `parse_row` panic propagates as `none`. -/
def bootloadLoop : List (List Nat) → Sess → Option (Except Error Unit × Sess)
  | [], s =>
    match stop_bootloader s with
    | (.error e, s1) => some (.error e, s1)
    | (.ok _, s1) => some (.ok (), s1)
  | line :: rest, s =>
    match parse_row line with
    | none => none
    | some (.error (.Host .Eof)) =>
      match stop_bootloader s with
      | (.error e, s1) => some (.error e, s1)
      | (.ok _, s1) => some (.ok (), s1)
    | some (.error e) => some (.error e, s)
    | some (.ok row) =>
      match program_row row s with
      | (.error e, s1) => some (.error e, s1)
      | (.ok _, s1) =>
        match verify_row row s1 with
        | (.error e, s2) => some (.error e, s2)
        | (.ok _, s2) => bootloadLoop rest s2

/-- `fn bootload` (src/lib.rs lines 312-339): parse the header line, invoke
    `comm.open()` WITH ITS BOOL RESULT DISCARDED (line 320 — the `openOk`
    argument is therefore never read), transmit `EnterBootloader`, then run
    the row loop. -/
def bootload (lines : List (List Nat)) (openOk : Bool) (writeOk : Bool)
    (resps : List (List Nat)) : Option (Except Error Unit × Sess) :=
  match parse_header (lines.headD []) with
  | .error e => some (.error e, ⟨writeOk, resps, []⟩)
  | .ok _header =>
    let _ := openOk
    let s0 : Sess := ⟨writeOk, resps, []⟩
    match start_bootloader s0 with
    | (.error e, s1) => some (.error e, s1)
    | (.ok _, s1) => bootloadLoop lines.tail s1

/-- The body of a packet before the checksum: start marker, command byte,
    little-endian payload length, payload.  (`create_packet`'s `packet`
    accumulator just before the checksum is computed.) -/
def packet_body (cmd : BootloaderCommand) (d : List Nat) : List Nat :=
  [0x01, cmd.toByte, d.length % 65536 % 256, d.length % 65536 / 256 % 256] ++ d

/-- The specification's simulated device echo: a response framed and
    checksummed exactly like an outgoing packet, with status byte `0x00` and
    the given payload. -/
def echo_response (payload : List Nat) : List Nat :=
  let body := [0x01, 0x00, payload.length % 65536 % 256,
               payload.length % 65536 / 256 % 256] ++ payload
  body ++ [checksum16 body % 256, checksum16 body / 256 % 256, 0x17]

/-- Number of `SendData` chunks the `program_row` loop emits for `n` bytes of
    row data: one per full iteration of `while remaining > 50`. -/
def chunkCount (n : Nat) : Nat := (n - 1) / 50

/-- The `SendData` packets (each expecting a response) that the `program_row`
    loop is specified to emit: the i-th carries the i-th successive 50-byte
    slice of the row data. -/
def chunkPackets (data : List Nat) : List (List Nat × Bool) :=
  (List.range (chunkCount data.length)).map
    fun i => (create_packet .SendData (some ((data.drop (50 * i)).take 50)), true)

/-- A trace contains no `ExitBootloader` packet: every packet written has a
    command byte (index 1) other than `0x3B`. -/
def noExit (t : List (List Nat × Bool)) : Prop :=
  ∀ p ∈ t, ¬ p.1.get? 1 = some 0x3B

instance (t : List (List Nat × Bool)) : Decidable (noExit t) := by
  unfold noExit; infer_instance

/-! ## Helper lemmas -/

theorem sum16_foldl_lt (l : List Nat) :
    ∀ a, a < 65536 → l.foldl (fun a b => (a + b % 256) % 65536) a < 65536 := by
  induction l with
  | nil => intro a ha; simpa using ha
  | cons x xs ih => intro a _; exact ih _ (Nat.mod_lt _ (by omega))

theorem sum16_lt (l : List Nat) : sum16 l < 65536 :=
  sum16_foldl_lt l 0 (by omega)

theorem checksum16_lt (l : List Nat) : checksum16 l < 65536 :=
  Nat.mod_lt _ (by omega)

theorem sum16_foldl_eq (l : List Nat) :
    ∀ a, (∀ x ∈ l, x < 256) →
      l.foldl (fun a b => (a + b % 256) % 65536) a % 65536 = (a + l.sum) % 65536 := by
  induction l with
  | nil => intro a _; simp
  | cons x xs ih =>
    intro a hb
    have hx : x % 256 = x := Nat.mod_eq_of_lt (hb x (by simp))
    have hxs : ∀ y ∈ xs, y < 256 := fun y hy => hb y (List.mem_cons_of_mem _ hy)
    simp only [List.foldl_cons, List.sum_cons]
    rw [ih _ hxs, hx, Nat.mod_add_mod]
    omega

theorem sum16_eq (l : List Nat) (hb : ∀ x ∈ l, x < 256) :
    sum16 l = l.sum % 65536 := by
  have h1 : sum16 l % 65536 = (0 + l.sum) % 65536 := sum16_foldl_eq l 0 hb
  have h2 : sum16 l < 65536 := sum16_lt l
  omega

theorem hexDigit_lt {b v : Nat} (h : hexDigit b = some v) : v < 16 := by
  unfold hexDigit at h
  split_ifs at h with h1 h2 h3 <;> simp_all <;> omega

theorem chunkParse_lt {c : List Nat} {v : Nat} (h : chunkParse c = some v) : v < 256 :=
  match c, h with
  | [a], h => lt_trans (hexDigit_lt h) (by omega)
  | [a, b], h => by
    simp only [chunkParse] at h
    split_ifs at h with h1
    · exact lt_trans (hexDigit_lt h) (by omega)
    · rcases ha : hexDigit a with _ | x <;> rcases hbb : hexDigit b with _ | y <;>
        rw [ha, hbb] at h <;> simp at h
      have hx := hexDigit_lt ha
      have hy := hexDigit_lt hbb
      omega

theorem from_ascii_lt (l : List Nat) : ∀ x ∈ from_ascii l, x < 256 := by
  intro x hx
  unfold from_ascii at hx
  obtain ⟨c, _, hc⟩ := List.mem_filterMap.mp hx
  exact chunkParse_lt hc

theorem getD_zero_mem_or (l : List Nat) (i : Nat) : l.getD i 0 ∈ l ∨ l.getD i 0 = 0 := by
  induction l generalizing i with
  | nil => right; simp
  | cons x xs ih =>
    cases i with
    | zero => left; simp
    | succ n =>
      rcases ih n with h | h
      · left; simpa using Or.inr h
      · right; simpa using h

theorem from_ascii_getD_lt (l : List Nat) (i : Nat) : (from_ascii l).getD i 0 < 256 := by
  rcases getD_zero_mem_or (from_ascii l) i with h | h
  · exact from_ascii_lt l _ h
  · omega

/-- `parse_row` on the empty line (what `read_line` yields at end of input)
    is the `Eof` signal, as the `[]` branch of `bootloadLoop` assumes. -/
theorem parse_row_nil : parse_row [] = some (.error (.Host .Eof)) := rfl

/-- The fuel argument of `sendDataChunksF` is irrelevant as soon as it covers
    the number of loop iterations, `(data.length - 1) / 50`; in particular the
    `data.length` fuel used by `sendDataChunks` always suffices. -/
theorem sendDataChunksF_fuel_free (f : Nat) :
    ∀ (g : Nat) (data : List Nat) (s : Sess),
      (data.length - 1) / 50 ≤ f → (data.length - 1) / 50 ≤ g →
      sendDataChunksF f data s = sendDataChunksF g data s := by
  induction f with
  | zero =>
    intro g data s hf _
    have hlen : data.length ≤ 50 := by omega
    cases g with
    | zero => rfl
    | succ g => simp [sendDataChunksF, Nat.not_lt.mpr hlen]
  | succ f ih =>
    intro g data s hf hg
    cases g with
    | zero =>
      have hlen : data.length ≤ 50 := by omega
      simp [sendDataChunksF, Nat.not_lt.mpr hlen]
    | succ g =>
      simp only [sendDataChunksF]
      by_cases h : 50 < data.length
      · simp only [if_pos h]
        rcases htr : transmitS (create_packet .SendData (some (data.take 50))) true s
          with ⟨r, s1⟩
        cases r with
        | error e => rfl
        | ok v =>
          refine ih g (data.drop 50) s1 ?_ ?_ <;> simp only [List.length_drop] <;> omega
      · simp only [if_neg h]

/-! ## Claim C1 -/

/-- Claim C1 (confirmed): for every byte sequence `b`, the codec checksum
    `c = (1 + complement(sum b)) mod 65536` satisfies
    `(sum b + c) mod 65536 = 0`; and this `checksum16` is exactly the value
    `create_packet` appends (little-endian) over start, code, length bytes and
    payload — the same function `transmitRx` recomputes over the four header
    bytes plus the payload. -/
theorem c1_checksum_cancels (b : List Nat) (hb : ∀ x ∈ b, x < 256) :
    (b.sum + checksum16 b) % 65536 = 0 ∧
    ∀ (cmd : BootloaderCommand) (d : List Nat),
      create_packet cmd (some d) =
        packet_body cmd d ++
          [checksum16 (packet_body cmd d) % 256,
           checksum16 (packet_body cmd d) / 256 % 256, 0x17] := by
  constructor
  · have h1 : sum16 b < 65536 := sum16_lt b
    have h2 : sum16 b = b.sum % 65536 := sum16_eq b hb
    unfold checksum16
    omega
  · intro cmd d
    rfl

/-- Witness for C1 at the concrete byte sequence `[1, 2, 3]`. -/
theorem c1_witness :
    (∀ x ∈ ([1, 2, 3] : List Nat), x < 256) ∧
    (([1, 2, 3] : List Nat).sum + checksum16 [1, 2, 3]) % 65536 = 0 :=
  ⟨by decide, (c1_checksum_cancels [1, 2, 3] (by decide)).1⟩

/-! ## Claim C9 -/

/-- Claim C9 (code bug): the source discards the `Result` of the footer
    `read_exact` (src/lib.rs line 64 has no `?`), so on a response stream that
    ends right after a valid success header (start `0x01`, status `0x00`,
    length 0) the transport read failure is NOT wrapped into
    `Host(Device(..))`: the zero-initialised footer fails the checksum
    comparison and the error is misreported as `Bootloader(Checksum)`. -/
theorem c9_footer_read_error_misreported :
    transmitRx [1, 0, 0, 0] = .error (.Bootloader .Checksum) ∧
    (Except.error (Error.Bootloader .Checksum) : Except Error (List Nat)) ≠
      .error (.Host (.Device .eof)) ∧
    (Except.error (Error.Bootloader .Checksum) : Except Error (List Nat)) ≠
      .error (.Host (.Device .closed)) := by
  exact ⟨by decide, by decide, by decide⟩

/-! ## Claim C10 -/

/-- Claim C10 amended: `parse_row` is total (returns a `FlashRow` or a typed
    `Error`, no panic) on every non-empty line whose byte index 1 is a
    character boundary — i.e. every line whose first character is single-byte,
    which any ASCII line satisfies.  When the first character is multi-byte
    the byte-slice `&row[1..]` (src/lib.rs line 283) panics, see `c10_cex`. -/
theorem c10_total_on_boundary (row : List Nat)
    (hne : row ≠ []) (hb : is_char_boundary row 1 = true) :
    (parse_row row).isSome = true := by
  have hb3 := from_ascii_getD_lt (row.drop 1) 3
  have hb4 := from_ascii_getD_lt (row.drop 1) 4
  simp only [parse_row]
  split_ifs with h1 h2 h3 h4 h5 h6 <;> simp_all
  omega

/-- Witness for C10 at the concrete line ":" (single ASCII byte 58). -/
theorem c10_witness :
    (([58] : List Nat) ≠ [] ∧ is_char_boundary [58] 1 = true) ∧
    (parse_row [58]).isSome = true :=
  ⟨⟨by decide, by decide⟩, c10_total_on_boundary [58] (by decide) (by decide)⟩

/-- Claim C10 counterexample: on the line "é" (UTF-8 bytes `[0xC3, 0xA9]`, a
    valid non-empty Rust string) byte index 1 is not a character boundary, so
    the byte-slice `&row[1..]` taken before the `:` check panics: `parse_row`
    is not total on non-empty lines, contradicting the claim. -/
theorem c10_cex : parse_row [195, 169] = none := by decide

/-! ## Claim C7 -/

/-- Claim C7 amended: for every non-empty line whose first character is not
    `:` (and is single-byte, so the slice at byte 1 does not panic), `parse_row`
    fails with `Host Command` PROVIDED the characters after the first decode
    to more than 6 bytes: the length check at src/lib.rs line 285 runs before
    the `:` check at line 288, so short non-`:` lines get `Host Length`
    instead (counterexample `c7_cex`). -/
theorem c7_non_colon_line (row : List Nat)
    (hne : row ≠ [])
    (hb : is_char_boundary row 1 = true)
    (hlen : 6 < (from_ascii (row.drop 1)).length)
    (hcol : row.take 1 ≠ [58]) :
    parse_row row = some (.error (.Host .Command)) := by
  simp only [parse_row]
  rw [if_neg (by simpa using hne), if_neg (by simp [hb]), if_neg (by omega),
    if_pos hcol]

/-- Witness for C7 at the concrete line "X00112233445566". -/
theorem c7_witness :
    (([88, 48, 48, 49, 49, 50, 50, 51, 51, 52, 52, 53, 53, 54, 54] : List Nat) ≠ [] ∧
     is_char_boundary [88, 48, 48, 49, 49, 50, 50, 51, 51, 52, 52, 53, 53, 54, 54] 1 = true ∧
     6 < (from_ascii (([88, 48, 48, 49, 49, 50, 50, 51, 51, 52, 52, 53, 53, 54, 54] :
        List Nat).drop 1)).length ∧
     ([88, 48, 48, 49, 49, 50, 50, 51, 51, 52, 52, 53, 53, 54, 54] : List Nat).take 1 ≠ [58]) ∧
    parse_row [88, 48, 48, 49, 49, 50, 50, 51, 51, 52, 52, 53, 53, 54, 54] =
      some (.error (.Host .Command)) :=
  ⟨⟨by decide, by decide, by decide, by decide⟩,
   c7_non_colon_line _ (by decide) (by decide) (by decide) (by decide)⟩

/-- Claim C7 counterexample: the line "X00" is non-empty, its first character
    is not `:`, yet `parse_row` fails with `Host Length` (its hex tail decodes
    to only one byte), not with the claimed `Host Command`. -/
theorem c7_cex :
    parse_row [88, 48, 48] = some (.error (.Host .Length)) ∧
    ([88, 48, 48] : List Nat).take 1 ≠ [58] ∧
    Error.Host .Length ≠ Error.Host .Command :=
  ⟨by decide, by decide, by decide⟩

/-! ## Claim C3 -/

/-- Claim C3 amended: `transmit`'s response validation rejects a wrong start
    byte and a wrong end marker with `Error.Bootloader BootloaderError.Data`,
    and a checksum mismatch with `Error.Bootloader BootloaderError.Checksum`.
    (The source constructs `Error::Bootloader(..)` for all three framing
    failures — src/lib.rs lines 52, 71 and 75 — not `Error::Host(..)` as the
    claim states; see `c3_cex`.) -/
theorem c3_framing_error_variants :
    (∀ h0 h1 h2 h3 rest, h0 ≠ 0x01 →
       transmitRx (h0 :: h1 :: h2 :: h3 :: rest) = .error (.Bootloader .Data)) ∧
    (∀ h2 h3 payload f0 f1 f2, payload.length = h2 + h3 * 256 →
       f0 + f1 * 256 ≠ checksum16 ([0x01, 0x00, h2, h3] ++ payload) →
       transmitRx (0x01 :: 0x00 :: h2 :: h3 :: (payload ++ [f0, f1, f2])) =
         .error (.Bootloader .Checksum)) ∧
    (∀ h2 h3 payload f0 f1 f2, payload.length = h2 + h3 * 256 →
       f0 + f1 * 256 = checksum16 ([0x01, 0x00, h2, h3] ++ payload) →
       f2 ≠ 0x17 →
       transmitRx (0x01 :: 0x00 :: h2 :: h3 :: (payload ++ [f0, f1, f2])) =
         .error (.Bootloader .Data)) := by
  refine ⟨?_, ?_, ?_⟩
  · intro h0 h1 h2 h3 rest h
    simp only [transmitRx, if_pos h]
  · intro h2 h3 payload f0 f1 f2 hlen hck
    have ht : (payload ++ [f0, f1, f2]).take (h2 + h3 * 256) = payload := by
      rw [← hlen]; exact List.take_left _ _
    have hd : (payload ++ [f0, f1, f2]).drop (h2 + h3 * 256) = [f0, f1, f2] := by
      rw [← hlen]; exact List.drop_left _ _
    simp only [transmitRx, if_neg (by simp : ¬ (0x01 : Nat) ≠ 0x01),
      if_neg (by simp : ¬ (0x00 : Nat) ≠ 0x00), ht, hd]
    simp only [List.getD_cons_zero, List.getD_cons_succ]
    rw [if_pos hck]
  · intro h2 h3 payload f0 f1 f2 hlen hck hend
    have ht : (payload ++ [f0, f1, f2]).take (h2 + h3 * 256) = payload := by
      rw [← hlen]; exact List.take_left _ _
    have hd : (payload ++ [f0, f1, f2]).drop (h2 + h3 * 256) = [f0, f1, f2] := by
      rw [← hlen]; exact List.drop_left _ _
    simp only [transmitRx, if_neg (by simp : ¬ (0x01 : Nat) ≠ 0x01),
      if_neg (by simp : ¬ (0x00 : Nat) ≠ 0x00), ht, hd]
    simp only [List.getD_cons_zero, List.getD_cons_succ]
    rw [if_neg (by simpa using hck), if_pos hend]

/-- Witness for C3: all three framing-rejection cases at concrete responses. -/
theorem c3_witness :
    ((2 : Nat) ≠ 0x01 ∧ transmitRx [2, 9, 9, 9] = .error (.Bootloader .Data)) ∧
    (([5] : List Nat).length = 1 + 0 * 256 ∧
      0 + 0 * 256 ≠ checksum16 ([0x01, 0x00, 1, 0] ++ [5]) ∧
      transmitRx (0x01 :: 0x00 :: 1 :: 0 :: ([5] ++ [0, 0, 23])) =
        .error (.Bootloader .Checksum)) ∧
    (249 + 255 * 256 = checksum16 ([0x01, 0x00, 1, 0] ++ [5]) ∧ (0 : Nat) ≠ 0x17 ∧
      transmitRx (0x01 :: 0x00 :: 1 :: 0 :: ([5] ++ [249, 255, 0])) =
        .error (.Bootloader .Data)) :=
  ⟨⟨by decide, c3_framing_error_variants.1 2 9 9 9 [] (by decide)⟩,
   ⟨by decide, by decide,
    c3_framing_error_variants.2.1 1 0 [5] 0 0 23 (by decide) (by decide)⟩,
   ⟨by decide, by decide,
    c3_framing_error_variants.2.2 1 0 [5] 249 255 0 (by decide) (by decide) (by decide)⟩⟩

/-- Claim C3 counterexample: a response with a wrong start byte is rejected
    with `Error.Bootloader BootloaderError.Data`, which is not the Host-side
    error `Error.Host HostError.Data` the claim asserts. -/
theorem c3_cex :
    transmitRx [0, 0, 0, 0] = .error (.Bootloader .Data) ∧
    Error.Bootloader .Data ≠ Error.Host .Data :=
  ⟨by decide, by decide⟩

/-! ## Claim C2 -/

/-- `transmitRx` accepts the simulated echo of any payload shorter than
    65536 bytes and returns the payload unchanged. -/
theorem transmitRx_echo (payload : List Nat) (h : payload.length < 65536) :
    transmitRx (echo_response payload) = .ok payload := by
  simp only [echo_response]
  set L := payload.length % 65536 with hL
  set body : List Nat := [0x01, 0x00, L % 256, L / 256 % 256] ++ payload with hbody
  set ck := checksum16 body with hckdef
  have hck : ck < 65536 := checksum16_lt body
  have hstream : body ++ [ck % 256, ck / 256 % 256, 0x17] =
      0x01 :: 0x00 :: L % 256 :: L / 256 % 256 ::
        (payload ++ [ck % 256, ck / 256 % 256, 0x17]) := by
    rw [hbody]; simp
  rw [hstream]
  simp only [transmitRx]
  rw [if_neg (by simp), if_neg (by simp)]
  have hlen2 : L % 256 + L / 256 % 256 * 256 = payload.length := by omega
  rw [hlen2, List.take_left, List.drop_left]
  simp only [List.getD_cons_zero, List.getD_cons_succ]
  rw [← hbody, ← hckdef]
  rw [if_neg (by omega), if_neg (by simp)]

/-- Claim C2 (confirmed): for every command and every payload of length at
    most 50, transmitting the packet built by `create_packet` against a
    device that echoes the same payload with status `0x00` (framed and
    checksummed the same way) succeeds through `transmit`'s response
    validation and returns exactly the original payload. -/
theorem c2_round_trip (cmd : BootloaderCommand) (payload : List Nat)
    (hlen : payload.length ≤ 50) :
    transmitS (create_packet cmd (some payload)) true
        ⟨true, [echo_response payload], []⟩ =
      (.ok payload, ⟨true, [], [(create_packet cmd (some payload), true)]⟩) := by
  have h1 : transmitRx (echo_response payload) = .ok payload :=
    transmitRx_echo payload (by omega)
  simp [transmitS, h1]

/-- Witness for C2 at command `Sync` and payload `[0xAB, 0xCD]`. -/
theorem c2_witness :
    (([0xAB, 0xCD] : List Nat).length ≤ 50) ∧
    transmitS (create_packet .Sync (some [0xAB, 0xCD])) true
        ⟨true, [echo_response [0xAB, 0xCD]], []⟩ =
      (.ok [0xAB, 0xCD], ⟨true, [], [(create_packet .Sync (some [0xAB, 0xCD]), true)]⟩) :=
  ⟨by decide, c2_round_trip .Sync [0xAB, 0xCD] (by decide)⟩

/-! ## Claim C4 -/

/-- Claim C4 amended: `bootload` invokes the transport's open capability but
    DISCARDS its Bool result (src/lib.rs line 320), so the session proceeds
    identically whether open succeeds or fails: no `Device` error is raised
    and the protocol traffic is unchanged.  `c4_cex` exhibits a complete
    successful session despite a failed open. -/
theorem c4_open_result_ignored (lines : List (List Nat)) (writeOk : Bool)
    (resps : List (List Nat)) :
    bootload lines true writeOk resps = bootload lines false writeOk resps := rfl

/-- Claim C4 counterexample: with a transport whose open fails, `bootload`
    still parses the header, transmits `EnterBootloader` (expecting and
    consuming a response) and `ExitBootloader`, and returns success — it does
    not return a fatal `Device` error and does not stop before protocol
    traffic, contradicting the claim. -/
theorem c4_cex :
    bootload [[48, 49, 48, 50, 48, 51, 48, 52, 65, 66, 48, 48]] false true
        [[1, 0, 0, 0, 255, 255, 23]] =
      some (.ok (), ⟨true, [],
        [(create_packet .EnterBootloader none, true),
         (create_packet .ExitBootloader none, false)]⟩) := by decide

/-! ## Claim C5 -/

/-- Unfolding of `chunkPackets` for data longer than one chunk: the first
    `SendData` packet carries the first 50 bytes, the rest are the chunks of
    the remainder. -/
theorem chunkPackets_cons (data : List Nat) (h : 50 < data.length) :
    chunkPackets data =
      (create_packet .SendData (some (data.take 50)), true) ::
        chunkPackets (data.drop 50) := by
  unfold chunkPackets
  have hk : chunkCount data.length = chunkCount (data.drop 50).length + 1 := by
    simp only [List.length_drop]; unfold chunkCount; omega
  rw [hk, List.range_succ_eq_map, List.map_cons, List.map_map]
  refine congrArg₂ List.cons (by simp) ?_
  refine List.map_congr_left fun i _ => ?_
  simp only [Function.comp_apply]
  have h2 : data.drop (50 * (i + 1)) = (data.drop 50).drop (50 * i) := by
    rw [List.drop_drop]; congr 1; ring
  rw [h2]

/-- Trace of the `SendData` chunk loop: with a writable transport, enough
    queued responses, all of them valid success responses, the loop emits
    exactly the successive 50-byte `SendData` packets of `chunkPackets`,
    consumes one response per packet, and returns the at-most-50-byte tail. -/
theorem sendDataChunksF_trace (fuel : Nat) :
    ∀ (data : List Nat) (s : Sess),
      s.writeOk = true →
      (∀ r ∈ s.resps, ∃ v, transmitRx r = Except.ok v) →
      chunkCount data.length ≤ s.resps.length →
      chunkCount data.length ≤ fuel →
      sendDataChunksF fuel data s =
        (Except.ok (data.drop (50 * chunkCount data.length)),
         ⟨true, s.resps.drop (chunkCount data.length),
          s.sent ++ chunkPackets data⟩) := by
  induction fuel with
  | zero =>
    intro data s hw _ _ hf
    have h0 : chunkCount data.length = 0 := by omega
    obtain ⟨w, rs0, st⟩ := s
    replace hw : w = true := hw
    subst hw
    simp [sendDataChunksF, h0, chunkPackets]
  | succ fuel ih =>
    intro data s hw hr hn hf
    by_cases h : 50 < data.length
    · have hk1 : 1 ≤ chunkCount data.length := by unfold chunkCount; omega
      obtain ⟨w, rs0, st⟩ := s
      replace hw : w = true := hw
      subst hw
      cases rs0 with
      | nil => simp at hn; omega
      | cons r rs =>
        obtain ⟨v, hv⟩ := hr r (by simp)
        have hr2 : ∀ r2 ∈ rs, ∃ v2, transmitRx r2 = Except.ok v2 :=
          fun r2 h2 => hr r2 (List.mem_cons_of_mem _ h2)
        have hlen50 : (data.drop 50).length = data.length - 50 := by
          simp [List.length_drop]
        have hkk : chunkCount (data.length - 50) = chunkCount data.length - 1 := by
          unfold chunkCount; omega
        have htr : transmitS (create_packet .SendData (some (data.take 50))) true
            ⟨true, r :: rs, st⟩ =
            (Except.ok v,
             ⟨true, rs, st ++ [(create_packet .SendData (some (data.take 50)), true)]⟩) := by
          simp [transmitS, hv]
        have hn2 : chunkCount (data.drop 50).length ≤
            (Sess.resps ⟨true, rs,
              st ++ [(create_packet .SendData (some (data.take 50)), true)]⟩).length := by
          have hh : chunkCount data.length ≤ rs.length + 1 := by simpa using hn
          show chunkCount (data.drop 50).length ≤ rs.length
          rw [hlen50, hkk]
          omega
        have hf2 : chunkCount (data.drop 50).length ≤ fuel := by
          rw [hlen50, hkk]; omega
        have e2 : (r :: rs).drop (chunkCount data.length) =
            rs.drop (chunkCount data.length - 1) := by
          have hsucc : chunkCount data.length = (chunkCount data.length - 1) + 1 := by omega
          rw [hsucc, List.drop_succ_cons, Nat.add_sub_cancel]
        simp only [sendDataChunksF, if_pos h]
        rw [htr]
        dsimp only
        rw [ih (data.drop 50) _ rfl hr2 hn2 hf2, chunkPackets_cons data h,
          hlen50, hkk, e2]
        refine congrArg₂ Prod.mk ?_ ?_
        · rw [List.drop_drop]
          have e3 : 50 + 50 * (chunkCount data.length - 1) =
              50 * chunkCount data.length := by omega
          rw [e3]
        · simp
    · have h0 : chunkCount data.length = 0 := by unfold chunkCount; omega
      obtain ⟨w, rs0, st⟩ := s
      replace hw : w = true := hw
      subst hw
      simp [sendDataChunksF, h, h0, chunkPackets]

/-- Claim C5 (confirmed): for every row with more than 50 data bytes (against
    a writable transport with enough valid success responses queued),
    `program_row` transmits the successive 50-byte `SendData` slices — each
    expecting a response — until the remaining tail is at most 50 bytes, then
    one `ProgramRow` packet whose payload is `[arrayId, rowNumber-low,
    rowNumber-high]` followed by that tail. -/
theorem c5_program_row_chunking (row : FlashRow) (s : Sess)
    (hbig : 50 < row.data.length)
    (hw : s.writeOk = true)
    (hr : ∀ r ∈ s.resps, ∃ v, transmitRx r = Except.ok v)
    (hn : chunkCount row.data.length + 1 ≤ s.resps.length) :
    (program_row row s).1 = .ok () ∧
    (program_row row s).2.sent =
      s.sent ++ chunkPackets row.data ++
        [(create_packet .ProgramRow
            (some ([row.array_id, row.row_num % 256, row.row_num / 256 % 256] ++
                   row.data.drop (50 * chunkCount row.data.length))), true)] := by
  have hchunks := sendDataChunksF_trace row.data.length row.data s hw hr (by omega)
    (by unfold chunkCount; omega)
  cases hd : s.resps.drop (chunkCount row.data.length) with
  | nil =>
    exfalso
    have hlen := congrArg List.length hd
    simp only [List.length_drop, List.length_nil] at hlen
    omega
  | cons r rs =>
    have hmem : r ∈ s.resps := List.drop_subset _ _ (hd ▸ List.mem_cons_self r rs)
    obtain ⟨v, hv⟩ := hr r hmem
    simp only [program_row, sendDataChunks]
    rw [hchunks]
    dsimp only
    rw [hd]
    have htr : transmitS
        (create_packet .ProgramRow
          (some ([row.array_id, row.row_num % 256, row.row_num / 256 % 256] ++
                 row.data.drop (50 * chunkCount row.data.length)))) true
        ⟨true, r :: rs, s.sent ++ chunkPackets row.data⟩ =
        (Except.ok v,
         ⟨true, rs, (s.sent ++ chunkPackets row.data) ++
           [(create_packet .ProgramRow
              (some ([row.array_id, row.row_num % 256, row.row_num / 256 % 256] ++
                     row.data.drop (50 * chunkCount row.data.length))), true)]⟩) := by
      simp [transmitS, hv]
    rw [htr]
    exact ⟨rfl, rfl⟩

set_option maxRecDepth 4000 in
/-- Witness for C5: a 120-byte row produces exactly two 50-byte `SendData`
    packets followed by one `ProgramRow` packet carrying the 3-byte address
    prefix plus the remaining 20 bytes. -/
theorem c5_witness :
    (50 < (List.replicate 120 9 : List Nat).length ∧
     (Sess.mk true [[1, 0, 0, 0, 255, 255, 23], [1, 0, 0, 0, 255, 255, 23],
        [1, 0, 0, 0, 255, 255, 23]] []).writeOk = true ∧
     (∀ r ∈ (Sess.mk true [[1, 0, 0, 0, 255, 255, 23], [1, 0, 0, 0, 255, 255, 23],
        [1, 0, 0, 0, 255, 255, 23]] []).resps, ∃ v, transmitRx r = Except.ok v) ∧
     chunkCount (List.replicate 120 9 : List Nat).length + 1 ≤
       (Sess.mk true [[1, 0, 0, 0, 255, 255, 23], [1, 0, 0, 0, 255, 255, 23],
        [1, 0, 0, 0, 255, 255, 23]] []).resps.length) ∧
    ((program_row ⟨1, 261, 120, List.replicate 120 9, 0⟩
        (Sess.mk true [[1, 0, 0, 0, 255, 255, 23], [1, 0, 0, 0, 255, 255, 23],
          [1, 0, 0, 0, 255, 255, 23]] [])).1 = .ok () ∧
     (program_row ⟨1, 261, 120, List.replicate 120 9, 0⟩
        (Sess.mk true [[1, 0, 0, 0, 255, 255, 23], [1, 0, 0, 0, 255, 255, 23],
          [1, 0, 0, 0, 255, 255, 23]] [])).2.sent =
       [] ++ chunkPackets (List.replicate 120 9) ++
         [(create_packet .ProgramRow
             (some ([1, 261 % 256, 261 / 256 % 256] ++
                    (List.replicate 120 9 : List Nat).drop
                      (50 * chunkCount (List.replicate 120 9 : List Nat).length))), true)]) :=
  ⟨⟨by decide, rfl,
    by
      intro r hr
      simp only [List.mem_cons, List.not_mem_nil, or_false] at hr
      rcases hr with h | h | h <;> subst h <;> exact ⟨[], by decide⟩,
    by decide⟩,
   c5_program_row_chunking ⟨1, 261, 120, List.replicate 120 9, 0⟩ _ (by decide) rfl
     (by
       intro r hr
       simp only [List.mem_cons, List.not_mem_nil, or_false] at hr
       rcases hr with h | h | h <;> subst h <;> exact ⟨[], by decide⟩)
     (by decide)⟩

/-! ## Claim C8 -/

/-- On a `:`-line whose tail decodes to more than 6 bytes, a failing (wrapped)
    `size + 6` comparison yields the `Host Length` error. -/
theorem parse_row_length_error (rest : List Nat)
    (hb : is_char_boundary (58 :: rest) 1 = true)
    (hlen : 6 < (from_ascii rest).length)
    (hwrap : ((from_ascii rest).getD 3 0 * 256 + (from_ascii rest).getD 4 0 + 6) %
        65536 ≠ (from_ascii rest).length) :
    parse_row (58 :: rest) = some (.error (.Host .Length)) := by
  have hdrop : (58 :: rest).drop 1 = rest := rfl
  simp only [parse_row, hdrop]
  rw [if_neg (by simp), if_neg (by simp [hb]), if_neg (by omega), if_neg (by simp),
    if_pos hwrap]

/-- Claim C8 amended: for every row line — first character `:`, byte index 1 a
    character boundary (automatic for valid UTF-8) — whose hex characters
    decode to more than 6 and AT MOST 65535 bytes, `parse_row` succeeds
    exactly when declaredSize + 6 equals the total decoded byte count
    (otherwise `Host Length`), and on success yields arrayId = byte 0,
    rowNumber = big-endian bytes 1-2, declaredSize = big-endian bytes 3-4,
    data = the declaredSize middle bytes, checksum = the last byte.  The
    65535-byte bound is forced by `c8_cex`: the `size + 6` comparison is u16
    arithmetic and wraps on a 65536-byte row. -/
theorem c8_row_decode (rest : List Nat)
    (hb : is_char_boundary (58 :: rest) 1 = true)
    (hlen : 6 < (from_ascii rest).length)
    (hmax : (from_ascii rest).length ≤ 65535) :
    ((from_ascii rest).getD 3 0 * 256 + (from_ascii rest).getD 4 0 + 6 =
        (from_ascii rest).length →
      parse_row (58 :: rest) = some (.ok
        ⟨(from_ascii rest).getD 0 0,
         (from_ascii rest).getD 1 0 * 256 + (from_ascii rest).getD 2 0,
         (from_ascii rest).getD 3 0 * 256 + (from_ascii rest).getD 4 0,
         ((from_ascii rest).drop 5).take ((from_ascii rest).length - 6),
         (from_ascii rest).getD ((from_ascii rest).length - 1) 0⟩)) ∧
    ((from_ascii rest).getD 3 0 * 256 + (from_ascii rest).getD 4 0 + 6 ≠
        (from_ascii rest).length →
      parse_row (58 :: rest) = some (.error (.Host .Length))) := by
  have hb3 := from_ascii_getD_lt rest 3
  have hb4 := from_ascii_getD_lt rest 4
  have hdrop : (58 :: rest).drop 1 = rest := rfl
  constructor
  · intro hsz
    simp only [parse_row, hdrop]
    rw [if_neg (by simp), if_neg (by simp [hb]), if_neg (by omega), if_neg (by simp),
      if_neg (by omega), if_neg (by omega)]
    have he : ((from_ascii rest).getD 3 0 * 256 + (from_ascii rest).getD 4 0 + 5) %
          65536 - 5 = (from_ascii rest).length - 6 := by omega
    rw [he]
  · intro hsz
    exact parse_row_length_error rest hb hlen (by omega)

/-- Witness for C8 at the concrete line ":0100050002AABBCC": arrayId 0x01,
    rowNumber 0x0005, declaredSize 0x0002, data [0xAA, 0xBB], checksum 0xCC. -/
theorem c8_witness :
    (is_char_boundary
        (58 :: [48, 49, 48, 48, 48, 53, 48, 48, 48, 50, 65, 65, 66, 66, 67, 67]) 1 = true ∧
     6 < (from_ascii [48, 49, 48, 48, 48, 53, 48, 48, 48, 50, 65, 65, 66, 66, 67, 67]).length ∧
     (from_ascii [48, 49, 48, 48, 48, 53, 48, 48, 48, 50, 65, 65, 66, 66, 67, 67]).length ≤ 65535 ∧
     (from_ascii [48, 49, 48, 48, 48, 53, 48, 48, 48, 50, 65, 65, 66, 66, 67, 67]).getD 3 0 * 256 +
       (from_ascii [48, 49, 48, 48, 48, 53, 48, 48, 48, 50, 65, 65, 66, 66, 67, 67]).getD 4 0 + 6 =
       (from_ascii [48, 49, 48, 48, 48, 53, 48, 48, 48, 50, 65, 65, 66, 66, 67, 67]).length) ∧
    parse_row (58 :: [48, 49, 48, 48, 48, 53, 48, 48, 48, 50, 65, 65, 66, 66, 67, 67]) =
      some (.ok ⟨0x01, 0x0005, 0x0002, [0xAA, 0xBB], 0xCC⟩) :=
  ⟨⟨by decide, by decide, by decide, by decide⟩, by
    rw [(c8_row_decode [48, 49, 48, 48, 48, 53, 48, 48, 48, 50, 65, 65, 66, 66, 67, 67]
      (by decide) (by decide) (by decide)).1 (by decide)]
    decide⟩

/-- The hex tail of the counterexample row line for C8: "000000FFFA" followed
    by 131062 `'0'` characters — it decodes to 65536 bytes `[0, 0, 0, 0xFF,
    0xFA]` ++ 65531 zero bytes, declaring size 0xFFFA = 65530 = 65536 - 6. -/
def c8cexRest : List Nat :=
  [48, 48, 48, 48, 48, 48, 70, 70, 70, 65] ++ List.replicate 131062 48

theorem chunks2_append_even : ∀ (a b : List Nat), a.length % 2 = 0 →
    chunks2 (a ++ b) = chunks2 a ++ chunks2 b := by
  intro a
  induction a using chunks2.induct with
  | case1 => intro b _; simp [chunks2]
  | case2 x => intro b h; simp at h
  | case3 x y rest ih =>
    intro b h
    have h2 : rest.length % 2 = 0 := by simp [List.length_cons] at h; omega
    simp only [List.cons_append, chunks2]
    simp [ih b h2]

theorem chunks2_replicate (n c : Nat) :
    chunks2 (List.replicate (2 * n) c) = List.replicate n [c, c] := by
  induction n with
  | zero => simp [chunks2]
  | succ m ih =>
    have h2 : 2 * (m + 1) = 2 * m + 2 := by ring
    rw [h2]
    show chunks2 (c :: c :: List.replicate (2 * m) c) = List.replicate (m + 1) [c, c]
    simp only [chunks2, ih, List.replicate_succ]

theorem filterMap_chunkParse_replicate (n : Nat) :
    List.filterMap chunkParse (List.replicate n [48, 48]) = List.replicate n 0 := by
  have hcp : chunkParse [48, 48] = some 0 := by decide
  induction n with
  | zero => simp
  | succ m ih =>
    simp only [List.replicate_succ, List.filterMap_cons, hcp, ih]

theorem from_ascii_c8cexRest :
    from_ascii c8cexRest = [0, 0, 0, 255, 250] ++ List.replicate 65531 0 := by
  unfold from_ascii c8cexRest
  rw [chunks2_append_even _ _ (by decide),
    show (131062 : Nat) = 2 * 65531 from by norm_num, chunks2_replicate,
    List.filterMap_append, filterMap_chunkParse_replicate]
  congr 1

theorem c8cex_length : (from_ascii c8cexRest).length = 65536 := by
  rw [from_ascii_c8cexRest, List.length_append, List.length_replicate]
  decide

/-- Claim C8 counterexample: the row line `:` ++ "000000FFFA" ++ 131062 zero
    characters decodes to 65536 bytes with declaredSize 0xFFFA = 65530, so
    declaredSize + 6 = 65536 equals the total decoded byte count — yet
    `parse_row` fails with `Host Length`, because the source compares
    `(size + 6) as u16`, which wraps to 0 ≠ 65536.  This refutes the claim's
    "succeeds exactly when declaredSize + 6 equals the total decoded byte
    count" at this input. -/
theorem c8_cex :
    parse_row (58 :: c8cexRest) = some (.error (.Host .Length)) ∧
    (from_ascii c8cexRest).getD 3 0 * 256 + (from_ascii c8cexRest).getD 4 0 + 6 =
      (from_ascii c8cexRest).length ∧
    6 < (from_ascii c8cexRest).length := by
  have hL : (from_ascii c8cexRest).length = 65536 := c8cex_length
  have h3 : (from_ascii c8cexRest).getD 3 0 = 255 := by
    rw [from_ascii_c8cexRest, List.getD_append _ _ _ _ (by decide)]
    decide
  have h4 : (from_ascii c8cexRest).getD 4 0 = 250 := by
    rw [from_ascii_c8cexRest, List.getD_append _ _ _ _ (by decide)]
    decide
  have hbb : is_char_boundary (58 :: c8cexRest) 1 = true := by
    unfold is_char_boundary
    rw [show (58 :: c8cexRest).get? 1 = some 48 from rfl]
    rw [show (match some 48 with
      | some b => decide (b < 128) || decide (192 ≤ b)
      | none => false) = true from rfl]
    exact Bool.or_true _
  refine ⟨?_, by rw [h3, h4, hL], by rw [hL]; omega⟩
  exact parse_row_length_error c8cexRest hbb (by rw [hL]; omega)
    (by rw [h3, h4, hL]; decide)

/-! ## Claim C6 -/

/-- Every packet built by `create_packet` carries its command byte at
    index 1. -/
theorem create_packet_code (cmd : BootloaderCommand) (d : Option (List Nat)) :
    (create_packet cmd d).get? 1 = some cmd.toByte := by
  cases d <;> rfl

/-- `transmitS` either leaves the trace unchanged (failed write) or appends
    exactly the transmitted packet. -/
theorem transmitS_sent (tx : List Nat) (resp : Bool) (s : Sess) :
    (transmitS tx resp s).2.sent = s.sent ∨
    (transmitS tx resp s).2.sent = s.sent ++ [(tx, resp)] := by
  unfold transmitS
  by_cases h : s.writeOk = false
  · rw [if_pos h]; left; rfl
  · rw [if_neg h]
    cases resp with
    | false => right; rfl
    | true =>
      cases hres : s.resps with
      | nil => right; simp [hres]
      | cons r rs => right; simp [hres]

/-- The two possible outcomes of `stop_bootloader`: a failed write leaves the
    session untouched, a successful write appends the fire-and-forget
    `ExitBootloader` packet and succeeds. -/
theorem stop_bootloader_cases (s : Sess) :
    stop_bootloader s = ((.error (.Host (.Device .closed)) : Except Error Unit), s) ∨
    stop_bootloader s =
      (.ok (), { s with sent := s.sent ++ [(create_packet .ExitBootloader none, false)] }) := by
  cases hw : s.writeOk with
  | false => left; simp [stop_bootloader, transmitS, hw]
  | true => right; simp [stop_bootloader, transmitS, hw]

theorem noExit_append {t l : List (List Nat × Bool)} (ht : noExit t) (hl : noExit l) :
    noExit (t ++ l) := by
  intro p hp
  rcases List.mem_append.mp hp with h | h
  · exact ht p h
  · exact hl p h

theorem transmitS_noExit (tx : List Nat) (resp : Bool) (s : Sess)
    (hs : noExit s.sent) (htx : ¬ tx.get? 1 = some 0x3B) :
    noExit (transmitS tx resp s).2.sent := by
  rcases transmitS_sent tx resp s with h | h <;> rw [h]
  · exact hs
  · refine noExit_append hs ?_
    intro p hp
    simp only [List.mem_singleton] at hp
    subst hp
    exact htx

theorem sendDataChunksF_noExit (fuel : Nat) : ∀ (data : List Nat) (s : Sess),
    noExit s.sent → noExit (sendDataChunksF fuel data s).2.sent := by
  induction fuel with
  | zero => intro data s hs; exact hs
  | succ fuel ih =>
    intro data s hs
    by_cases h : 50 < data.length
    · simp only [sendDataChunksF, if_pos h]
      have h1 := transmitS_noExit (create_packet .SendData (some (data.take 50))) true s hs
        (by rw [create_packet_code]; decide)
      rcases htr : transmitS (create_packet .SendData (some (data.take 50))) true s
        with ⟨r, s1⟩
      rw [htr] at h1
      cases r with
      | error e => exact h1
      | ok v => exact ih (data.drop 50) s1 h1
    · simp only [sendDataChunksF, if_neg h]; exact hs

theorem program_row_noExit (row : FlashRow) (s : Sess) (hs : noExit s.sent) :
    noExit (program_row row s).2.sent := by
  have h1 := sendDataChunksF_noExit row.data.length row.data s hs
  simp only [program_row, sendDataChunks]
  split
  next e s1 heq =>
    rw [heq] at h1
    exact h1
  next tail s1 heq =>
    rw [heq] at h1
    have h2 := transmitS_noExit
      (create_packet .ProgramRow
        (some ([row.array_id, row.row_num % 256, row.row_num / 256 % 256] ++ tail)))
      true s1 h1 (by rw [create_packet_code]; decide)
    split
    next e2 s2 heq2 =>
      rw [heq2] at h2
      exact h2
    next v s2 heq2 =>
      rw [heq2] at h2
      exact h2

theorem verify_row_noExit (row : FlashRow) (s : Sess) (hs : noExit s.sent) :
    noExit (verify_row row s).2.sent := by
  have h2 := transmitS_noExit
    (create_packet .VerifyRow
      (some [row.array_id, row.row_num % 256, row.row_num / 256 % 256]))
    true s hs (by rw [create_packet_code]; decide)
  simp only [verify_row]
  rcases ht : transmitS
      (create_packet .VerifyRow
        (some [row.array_id, row.row_num % 256, row.row_num / 256 % 256]))
      true s with ⟨r, s1⟩
  rw [ht] at h2
  cases r with
  | error e => exact h2
  | ok v => exact h2

theorem start_bootloader_noExit (s : Sess) (hs : noExit s.sent) :
    noExit (start_bootloader s).2.sent := by
  have h2 := transmitS_noExit (create_packet .EnterBootloader none) true s hs
    (by rw [create_packet_code]; decide)
  simp only [start_bootloader]
  rcases ht : transmitS (create_packet .EnterBootloader none) true s with ⟨r, s1⟩
  rw [ht] at h2
  cases r with
  | error e => exact h2
  | ok v => exact h2

/-- When the queued device response to a `VerifyRow` transmit starts with a
    valid `0x01` marker and status byte `0x08`, `verify_row` fails with
    `Bootloader(Checksum)` (`From<u8>` maps `0x08` to `Checksum`). -/
theorem verify_row_status8 (row : FlashRow) (r : List Nat) (rs : List (List Nat))
    (st : List (List Nat × Bool))
    (h0 : r.get? 0 = some 1) (h1 : r.get? 1 = some 8) (hlen : 4 ≤ r.length) :
    (verify_row row ⟨true, r :: rs, st⟩).1 = .error (.Bootloader .Checksum) := by
  rcases r with _ | ⟨b0, r⟩
  · simp at hlen
  rcases r with _ | ⟨b1, r⟩
  · simp at hlen
  rcases r with _ | ⟨b2, r⟩
  · simp at hlen
  rcases r with _ | ⟨b3, r⟩
  · simp at hlen
  simp only [List.get?_cons_zero, List.get?_cons_succ, Option.some.injEq] at h0 h1
  subst h0
  subst h1
  simp [verify_row, transmitS,
    show transmitRx (1 :: 8 :: b2 :: b3 :: r) = .error (.Bootloader .Checksum) from rfl]

/-- A `verify_row` failure on a successfully parsed and programmed row aborts
    the row loop with exactly that error (in particular no further packet,
    such as `ExitBootloader`, is transmitted afterwards). -/
theorem bootloadLoop_verify_error (line : List Nat) (rest : List (List Nat)) (s : Sess)
    (row : FlashRow) (e : Error) (sA sB : Sess)
    (hp : parse_row line = some (.ok row))
    (hpr : program_row row s = (.ok (), sA))
    (hvr : verify_row row sA = (.error e, sB)) :
    bootloadLoop (line :: rest) s = some (.error e, sB) := by
  simp only [bootloadLoop, hp, hpr, hvr]

/-- A `bootload` run that does not return success never has an
    `ExitBootloader` packet (command byte `0x3B`) in its trace: the row loop. -/
theorem bootloadLoop_noExit : ∀ (lines : List (List Nat)) (s : Sess)
    (res : Except Error Unit) (s1 : Sess),
    bootloadLoop lines s = some (res, s1) → res ≠ .ok () → noExit s.sent →
    noExit s1.sent := by
  intro lines
  induction lines with
  | nil =>
    intro s res s1 hrun hres hs
    simp only [bootloadLoop] at hrun
    rcases stop_bootloader_cases s with h | h <;> rw [h] at hrun <;>
      injection hrun with h2 <;> injection h2 with h3 h4
    · subst h4; exact hs
    · exact absurd h3.symm hres
  | cons line rest ih =>
    intro s res s1 hrun hres hs
    rcases hp : parse_row line with _ | pr
    · rw [bootloadLoop, hp] at hrun
      exact Option.noConfusion hrun
    cases pr with
    | error e =>
      rcases e with he | be
      · cases he
        case Eof =>
          simp only [bootloadLoop, hp] at hrun
          rcases stop_bootloader_cases s with h | h <;> rw [h] at hrun <;>
            injection hrun with h2 <;> injection h2 with h3 h4
          · subst h4; exact hs
          · exact absurd h3.symm hres
        all_goals
          simp only [bootloadLoop, hp] at hrun
          injection hrun with h2
          injection h2 with h3 h4
          subst h4
          exact hs
      · simp only [bootloadLoop, hp] at hrun
        injection hrun with h2
        injection h2 with h3 h4
        subst h4
        exact hs
    | ok row =>
      simp only [bootloadLoop, hp] at hrun
      have hA0 := program_row_noExit row s hs
      rcases hpr : program_row row s with ⟨r1, sA⟩
      rw [hpr] at hA0 hrun
      cases r1 with
      | error e1 =>
        injection hrun with h2
        injection h2 with h3 h4
        subst h4
        exact hA0
      | ok u =>
        dsimp only at hrun
        have hB0 := verify_row_noExit row sA hA0
        rcases hvr : verify_row row sA with ⟨r2, sB⟩
        rw [hvr] at hB0 hrun
        cases r2 with
        | error e2 =>
          injection hrun with h2
          injection h2 with h3 h4
          subst h4
          exact hB0
        | ok u2 =>
          exact ih sB res s1 hrun hres hB0

/-- A `bootload` run that does not return success never sends
    `ExitBootloader`. -/
theorem bootload_noExit (lines : List (List Nat)) (o w : Bool)
    (resps : List (List Nat)) (res : Except Error Unit) (s1 : Sess)
    (hrun : bootload lines o w resps = some (res, s1)) (hres : res ≠ .ok ()) :
    noExit s1.sent := by
  have hnil : noExit (Sess.sent ⟨w, resps, []⟩) := by
    intro p hp
    simp at hp
  simp only [bootload] at hrun
  rcases hh : parse_header (lines.headD []) with e | hdr
  · rw [hh] at hrun
    injection hrun with h2
    injection h2 with h3 h4
    subst h4
    exact hnil
  · rw [hh] at hrun
    have hA0 := start_bootloader_noExit ⟨w, resps, []⟩ hnil
    rcases hsb : start_bootloader ⟨w, resps, []⟩ with ⟨r1, sA⟩
    rw [hsb] at hA0 hrun
    cases r1 with
    | error e1 =>
      injection hrun with h2
      injection h2 with h3 h4
      subst h4
      exact hA0
    | ok u =>
      exact bootloadLoop_noExit lines.tail sA res s1 hrun hres hA0

/-- Claim C6 (confirmed, stated compositionally): (1) when the device answers
    a `VerifyRow` transmit with a well-formed response header whose status
    byte is `0x08`, `verify_row` fails with `Bootloader(Checksum)` — status
    `0x08` maps to `Checksum` through `From<u8> for BootloaderError`; (2) a
    `verify_row` failure on a parsed and programmed row makes the session
    loop return exactly that error; and (3) every `bootload` run that does
    not return success has no `ExitBootloader` packet (command byte `0x3B`)
    anywhere in its transmit trace — the device-error path performs no
    cleanup command. -/
theorem c6_verify_status8_aborts :
    (∀ (row : FlashRow) (r : List Nat) (rs : List (List Nat))
       (st : List (List Nat × Bool)),
       r.get? 0 = some 1 → r.get? 1 = some 8 → 4 ≤ r.length →
       (verify_row row ⟨true, r :: rs, st⟩).1 = .error (.Bootloader .Checksum)) ∧
    (∀ (line : List Nat) (rest : List (List Nat)) (s : Sess) (row : FlashRow)
       (e : Error) (sA sB : Sess),
       parse_row line = some (.ok row) →
       program_row row s = (.ok (), sA) →
       verify_row row sA = (.error e, sB) →
       bootloadLoop (line :: rest) s = some (.error e, sB)) ∧
    (∀ (lines : List (List Nat)) (o w : Bool) (resps : List (List Nat))
       (res : Except Error Unit) (s1 : Sess),
       bootload lines o w resps = some (res, s1) → res ≠ .ok () →
       noExit s1.sent) :=
  ⟨fun row r rs st h0 h1 hlen => verify_row_status8 row r rs st h0 h1 hlen,
   fun line rest s row e sA sB hp hpr hvr =>
     bootloadLoop_verify_error line rest s row e sA sB hp hpr hvr,
   fun lines o w resps res s1 hrun hres =>
     bootload_noExit lines o w resps res s1 hrun hres⟩

/-- Witness for C6: a concrete session with one valid row where the device
    answers `VerifyRow` with status `0x08` — the loop fails with
    `Bootloader(Checksum)` and the trace contains only the `ProgramRow` and
    `VerifyRow` packets, no `ExitBootloader`. -/
theorem c6_witness :
    ((([1, 8, 0, 0] : List Nat).get? 0 = some 1 ∧
        ([1, 8, 0, 0] : List Nat).get? 1 = some 8 ∧ 4 ≤ ([1, 8, 0, 0] : List Nat).length) ∧
      (verify_row ⟨1, 5, 2, [170, 187], 204⟩ ⟨true, [[1, 8, 0, 0]], []⟩).1 =
        .error (.Bootloader .Checksum)) ∧
    bootloadLoop [[58, 48, 49, 48, 48, 48, 53, 48, 48, 48, 50, 65, 65, 66, 66, 67, 67]]
        ⟨true, [[1, 0, 0, 0, 255, 255, 23], [1, 8, 0, 0]], []⟩ =
      some (.error (.Bootloader .Checksum),
        ⟨true, [],
         [(create_packet .ProgramRow (some [1, 5, 0, 170, 187]), true),
          (create_packet .VerifyRow (some [1, 5, 0]), true)]⟩) ∧
    (bootload [[48, 49, 48, 50, 48, 51, 48, 52, 65, 66, 48, 48]] true true [] =
        some (.error (.Host (.Device .eof)),
          ⟨true, [], [(create_packet .EnterBootloader none, true)]⟩) ∧
      noExit (Sess.sent ⟨true, [], [(create_packet .EnterBootloader none, true)]⟩)) :=
  ⟨⟨⟨by decide, by decide, by decide⟩,
    c6_verify_status8_aborts.1 ⟨1, 5, 2, [170, 187], 204⟩ [1, 8, 0, 0] [] []
      (by decide) (by decide) (by decide)⟩,
   c6_verify_status8_aborts.2.1
     [58, 48, 49, 48, 48, 48, 53, 48, 48, 48, 50, 65, 65, 66, 66, 67, 67] []
     ⟨true, [[1, 0, 0, 0, 255, 255, 23], [1, 8, 0, 0]], []⟩
     ⟨1, 5, 2, [170, 187], 204⟩ (.Bootloader .Checksum)
     ⟨true, [[1, 8, 0, 0]], [(create_packet .ProgramRow (some [1, 5, 0, 170, 187]), true)]⟩
     ⟨true, [],
      [(create_packet .ProgramRow (some [1, 5, 0, 170, 187]), true),
       (create_packet .VerifyRow (some [1, 5, 0]), true)]⟩
     (by decide) (by decide) (by decide),
   by decide,
   c6_verify_status8_aborts.2.2 [[48, 49, 48, 50, 48, 51, 48, 52, 65, 66, 48, 48]]
     true true [] (.error (.Host (.Device .eof)))
     ⟨true, [], [(create_packet .EnterBootloader none, true)]⟩
     (by decide) (by decide)⟩

end PsocBootloader
